import Mathlib

/-!
dodo: a scriptable in-place file editor.

A shallow embedding of `dodo.c`: the instruction data model, the C library
calls the program relies on (`strlen`, `strcmp`, `fread`, `fwrite`, `fseek`,
`printf`), the buffer helper `get_buffer`, the evaluation functions `eval_*`,
the dispatcher `execute` and the parser `parse`, followed by theorems about
them.

Conventions of the embedding:

* a byte is a natural number (a value below 256 in a real file; nothing below
  depends on the bound);
* a C string or buffer is the list of bytes stored in it, followed in memory
  by zero bytes, so the string it holds ends before its first zero byte;
* the stream `p->file` is a file opened with mode `r+b`: its contents and its
  position. A read is short only at end of file and a seek fails only for a
  negative offset; how many of the bytes offered to a write are taken is
  decided by the device behind the stream, a parameter of `fwrite` and of
  every function that writes;
* memory is not bounded: an allocation is granted unless its size exceeds
  the greatest size an allocator accepts;
* an `int` is an integer of 32 bits whose sums wrap around, a `size_t` a
  natural number below `2^64`;
* everything the program prints goes to `stdout`, kept in the program state;
* a loop that the C code may run for ever takes a fuel argument, and the
  result `none` means that the fuel ran out before the function returned.
-/

namespace Dodo

/-- One byte of a file, of a string or of the script. -/
abbrev Byte := Nat

/-- The byte of an ASCII character, as in a C character constant. -/
def ch (c : Char) : Byte := c.toNat

/-- The bytes of a string literal (without the terminating zero byte). -/
def bytes (s : String) : List Byte := s.toList.map Char.toNat

/-! ## C library -/

/-- The string held in a buffer: its bytes up to the first zero byte. -/
def cstr (buf : List Byte) : List Byte := buf.takeWhile (fun b => b != 0)

/-- C `strlen`: the number of bytes ahead of the first zero byte. -/
def strlen (s : List Byte) : Nat := (cstr s).length

/-- C `strcmp` on two buffers, each followed by zero bytes: the difference of
the first pair of bytes that differ, and `0` when both strings end together. -/
def strcmp : List Byte → List Byte → Int
  | [], [] => 0
  | [], b :: _ => 0 - (b : Int)
  | a :: _, [] => (a : Int)
  | a :: s, b :: t =>
    if a ≠ b then (a : Int) - (b : Int)
    else if a = 0 then 0
    else strcmp s t

/-- The decimal digits `printf` prints for `%zu`. -/
def fmt_zu (n : Nat) : List Byte := bytes (toString n)

/-- The greatest value of an `int`. -/
def INT_MAX : Int := 2147483647

/-- The value of an `int` expression whose mathematical value is `n`: the sum
wraps around into the range from `-2^31` to `2^31 - 1`. -/
def wrap_int (n : Int) : Int := (n + 2147483648) % 4294967296 - 2147483648

/-- The conversion of an `int` to `size_t`: the value modulo `2^64`. -/
def to_size_t (n : Int) : Nat := (n % 18446744073709551616).toNat

/-- C `calloc(nmemb, 1)`: whether the buffer is granted. A request of more
than `PTRDIFF_MAX` bytes is refused; any other request is granted, the one
for no bytes too. -/
def calloc (nmemb : Nat) : Bool := decide (nmemb ≤ 9223372036854775807)

/-- The stream `FILE *file`: the contents of the file and the file position. -/
structure File where
  data : List Byte
  pos : Nat
deriving DecidableEq, Repr

/-- The bytes between the file position and the end of the file. -/
def File.rest (f : File) : List Byte := f.data.drop f.pos

/-- C `fread(buf, 1, n, file)`: the bytes read (at most `n`, fewer only when
the file ends) and the stream with its position advanced past them. The
return value `nr` of the C call is the length of the list. -/
def fread (f : File) (n : Nat) : List Byte × File :=
  let got := f.rest.take n
  (got, { f with pos := f.pos + got.length })

/-- The device behind a stream: for a stream state and a number of bytes
offered to a write, the number of bytes the device takes; `fwrite` lets it
take no more than are offered. -/
abbrev Device := File → Nat → Nat

/-- The device of a regular file with room for every write: it takes every
byte it is offered. -/
def regular : Device := fun _ n => n

/-- The device of a file that may not grow beyond `limit` bytes (a full disk,
a file size limit): it takes the bytes that fit below the limit. -/
def limited (limit : Nat) : Device := fun f n => min n (limit - f.pos)

/-- The stream after the bytes `w` have been stored at the position: they
overwrite the file from the position on; bytes stored beyond the end of the
file leave a gap of zero bytes; no bytes leave the stream as it is. -/
def store (f : File) (w : List Byte) : File :=
  if w = [] then f
  else
    let old := f.data ++ List.replicate (f.pos - f.data.length) 0
    { data := old.take f.pos ++ w ++ old.drop (f.pos + w.length),
      pos := f.pos + w.length }

/-- C `fwrite(s, 1, len s, file)` on the device `dev`: the number of bytes
written and the stream after the write. The device takes the leading bytes
of `s`, all of them or fewer, and those are stored at the position. -/
def fwrite (dev : Device) (f : File) (s : List Byte) : Nat × File :=
  let w := s.take (dev f s.length)
  (w.length, store f w)

/-- C `fseek(file, offset, SEEK_SET)`: `0` and the stream moved to `offset`,
or `-1` and the stream unmoved when the offset is negative. -/
def fseek (f : File) (offset : Int) : Int × File :=
  if offset < 0 then (-1, f)
  else (0, { f with pos := offset.toNat })

/-! ## Data structures -/

/-- The `enum Command`. -/
inductive Command where
  | print
  | line
  | byte
  | expect
  | write
  | quit
deriving DecidableEq, Repr

/-- A `struct Instruction` without its `next` pointer: the command together
with the member of `union Argument` that the command selects (`num` for
`print`, `line` and `byte`; `str`, possibly a null pointer, for `expect` and
`write`; none for `quit`). -/
inductive Instruction where
  | print (num : Int)
  | line (num : Int)
  | byte (num : Int)
  | expect (str : Option (List Byte))
  | write (str : Option (List Byte))
  | quit
deriving DecidableEq, Repr

/-- The field `command` of an instruction. -/
def Instruction.command : Instruction → Command
  | .print _ => .print
  | .line _ => .line
  | .byte _ => .byte
  | .expect _ => .expect
  | .write _ => .write
  | .quit => .quit

/-- The `struct Program`. The linked list `start` is the list of its
instructions; `stdout` is the standard output of the process. -/
structure Program where
  start : List Instruction
  file : File
  source : List Byte
  buf : List Byte
  buf_len : Nat
  stdout : List Byte
deriving DecidableEq, Repr

/-- C `puts` on the standard output `out`: the string and a newline. -/
def puts (out : List Byte) (s : String) : List Byte :=
  out ++ bytes s ++ [ch '\n']

/-- C `printf` on the standard output `out`, given the bytes it prints. -/
def printf (out : List Byte) (text : List Byte) : List Byte :=
  out ++ text

/-- The program state after `puts(s)`. -/
def Program.puts (p : Program) (s : String) : Program :=
  { p with stdout := Dodo.puts p.stdout s }

/-- The program state after a `printf` that prints `text`. -/
def Program.printf (p : Program) (text : List Byte) : Program :=
  { p with stdout := Dodo.printf p.stdout text }

/-- The function `new_instruction`: `calloc` zeroes the node, so the argument
is the number `0`, or the null pointer. Memory is not bounded, so the node is
always granted; on a machine whose memory runs out the call returns the null
pointer from then on. -/
def new_instruction : Command → Option Instruction
  | .print => some (.print 0)
  | .line => some (.line 0)
  | .byte => some (.byte 0)
  | .expect => some (.expect none)
  | .write => some (.write none)
  | .quit => some .quit

/-- The function `get_buffer`, for a program that is not the null pointer:
the pointer it returns (`none` for the null pointer, otherwise the buffer) and
the program it leaves. `realloc` to a smaller size keeps the leading bytes. -/
def get_buffer (p : Program) (required_len : Nat) : Option (List Byte) × Program :=
  if p.buf_len ≤ required_len then
    (some p.buf, p)
  else
    let p := { p with buf_len := required_len, buf := p.buf.take required_len }
    if p.buf_len = 0 then
      (none, p.puts "get_buffer: failed to allocate buffer")
    else
      (some p.buf, p)

/-! ## Evaluation functions -/

/-- The function `eval_print`, given `cur->argument.num`. The sum `1 + num`
is an `int`, converted to `size_t` for `calloc`; `num` is converted to
`size_t` for `fread`. -/
def eval_print (p : Program) (num : Int) : Nat × Program :=
  let num := if num = 0 then 100 else num
  if calloc (to_size_t (wrap_int (1 + num))) = false then
    (1, p.puts "Call to calloc failed in eval_print")
  else
    let (buf, file) := fread p.file (to_size_t num)
    (0, Program.printf { p with file := file }
      ([ch '\''] ++ cstr buf ++ [ch '\'', ch '\n']))

/-- The function `eval_byte`, given `cur->argument.num`. -/
def eval_byte (p : Program) (byte : Int) : Nat × Program :=
  let (r, file) := fseek p.file byte
  if r ≠ 0 then
    (1, Program.puts { p with file := file } "Eval_byte: fseek failed")
  else
    (0, { p with file := file })

/-- The function `eval_line`. -/
def eval_line (p : Program) (_num : Int) : Nat × Program :=
  (1, p.puts "eval_line unimplemented")

/-- The function `eval_expect`, given `cur->argument.str`. -/
def eval_expect (p : Program) (str : Option (List Byte)) : Nat × Program :=
  match str with
  | none => (1, p.puts "Eval_expect: no string argument found")
  | some str =>
    let len := strlen str
    let (buf, file) := fread p.file len
    let nr := buf.length
    let p := { p with file := file }
    if nr ≠ len then
      (1, p.printf (bytes "Eval_expect: expected to read '" ++ fmt_zu len
        ++ bytes "' bytes, actually read '" ++ fmt_zu nr ++ bytes "'\n"))
    else if strcmp str buf ≠ 0 then
      (1, p.printf (bytes "Eval_expect: expected string '" ++ cstr str
        ++ bytes "', got '" ++ cstr buf ++ bytes "'\n"))
    else
      (0, p)

/-- The function `eval_write`, given `cur->argument.str`, on a stream whose
device is `dev`. -/
def eval_write (dev : Device) (p : Program) (str : Option (List Byte)) : Nat × Program :=
  match str with
  | none => (1, p.puts "Eval_write: no argument string found")
  | some str =>
    let len := strlen str
    let (nw, file) := fwrite dev p.file (str.take len)
    let p := { p with file := file }
    if nw ≠ len then
      (1, p.printf (bytes "Eval_write: expected to write '" ++ fmt_zu len
        ++ bytes "' bytes, actually wrote '" ++ fmt_zu nw ++ bytes "'\n"))
    else
      (0, p)

/-- The loop of `execute` over the linked list, from the node `cur` on, the
device behind `p->file` being `dev`. -/
def execute_loop (dev : Device) : List Instruction → Program → Nat × Program
  | [], p => (0, p)
  | cur :: next, p =>
    match cur with
    | .print num =>
      let (ret, p) := eval_print p num
      if ret ≠ 0 then (ret, p) else execute_loop dev next p
    | .line num =>
      let (ret, p) := eval_line p num
      if ret ≠ 0 then (ret, p) else execute_loop dev next p
    | .byte num =>
      let (ret, p) := eval_byte p num
      if ret ≠ 0 then (ret, p) else execute_loop dev next p
    | .expect str =>
      let (ret, p) := eval_expect p str
      if ret ≠ 0 then (ret, p) else execute_loop dev next p
    | .write str =>
      let (ret, p) := eval_write dev p str
      if ret ≠ 0 then (ret, p) else execute_loop dev next p
    | .quit => (0, p)

/-- The function `execute`, for a program that is not the null pointer, the
device behind `p->file` being `dev`. -/
def execute (dev : Device) (p : Program) : Nat × Program :=
  execute_loop dev p.start p

/-! ## Parsing functions

A parsing function gets the script `source`, the value of `*index` and the
standard output; it yields the instruction it returns (`none` for the null
pointer), the new value of `*index` and the standard output. A script is the
list of its bytes, followed in memory by zero bytes. -/

/-- The byte `source[index]`. -/
def at_index (source : List Byte) (index : Nat) : Byte := source.getD index 0

/-- The function `parse_print`. -/
def parse_print (_source : List Byte) (index : Nat) (out : List Byte) :
    Option Instruction × Nat × List Byte :=
  match new_instruction .print with
  | none => (none, index, puts out "Parse_print: call to new_instruction failed")
  | some _ => (none, index, puts out "parse_print unimplemented")

/-- The function `parse_byte`. -/
def parse_byte (_source : List Byte) (index : Nat) (out : List Byte) :
    Option Instruction × Nat × List Byte :=
  match new_instruction .byte with
  | none => (none, index, puts out "Parse_byte: call to new_instruction failed")
  | some _ => (none, index, puts out "parse_byte unimplemented")

/-- The function `parse_line`. -/
def parse_line (_source : List Byte) (index : Nat) (out : List Byte) :
    Option Instruction × Nat × List Byte :=
  match new_instruction .line with
  | none => (none, index, puts out "Parse_line: call to new_instruction failed")
  | some _ => (none, index, puts out "parse_line unimplemented")

/-- The function `parse_expect`. -/
def parse_expect (_source : List Byte) (index : Nat) (out : List Byte) :
    Option Instruction × Nat × List Byte :=
  match new_instruction .expect with
  | none => (none, index, puts out "Parse_expect: call to new_instruction failed")
  | some _ => (none, index, puts out "parse_expect unimplemented")

/-- The function `parse_write`. -/
def parse_write (_source : List Byte) (index : Nat) (out : List Byte) :
    Option Instruction × Nat × List Byte :=
  match new_instruction .write with
  | none => (none, index, puts out "Parse_write: call to new_instruction failed")
  | some _ => (none, index, puts out "parse_write unimplemented")

/-- The function `parse_quit`. -/
def parse_quit (source : List Byte) (index : Nat) (out : List Byte) :
    Option Instruction × Nat × List Byte :=
  let c := at_index source index
  if c = ch 'q' ∨ c = ch 'Q' ∨ c = 0 then
    match new_instruction .quit with
    | none => (none, index, puts out "Parse_quit: call to new_instruction failed")
    | some i => (some i, index, out)
  else
    (none, index, printf out (bytes "Parse_quit: unexpected character '" ++ [c] ++ bytes "'\n"))

/-- The loop `while( 1 )` of `parse_comment`: each round looks at
`source[*index]`; on a newline or a zero byte the `break` leaves the `switch`
and the loop goes round again, on any other byte the index moves on. No round
leaves the loop. -/
def parse_comment_loop (source : List Byte) : Nat → Nat → Option Nat
  | 0, _ => none
  | fuel + 1, index =>
    let c := at_index source index
    if c = ch '\n' ∨ c = 0 then parse_comment_loop source fuel index
    else parse_comment_loop source fuel (index + 1)

/-- The function `parse_comment`: the value returned, the new value of
`*index` and the standard output, or `none` when the fuel runs out. -/
def parse_comment (fuel : Nat) (source : List Byte) (index : Nat) (out : List Byte) :
    Option (Nat × Nat × List Byte) :=
  let c := at_index source index
  if c ≠ ch '#' then
    some (1, index, printf out (bytes "Parse_comment: expected '#', got '" ++ [c] ++ bytes "'\n"))
  else
    match parse_comment_loop source fuel index with
    | none => none
    | some index => some (0, index, out)

/-- What `parse` does with the result `res` of a parsing function: on the null
pointer it prints `msg` and returns `1`, otherwise it links the instruction
behind the ones stored so far. The left result is the return of `parse`, the
right one the new list of stored instructions. -/
def store_result (res : Option Instruction) (stored : List Instruction) (out : List Byte)
    (msg : String) : (Nat × List Byte) ⊕ List Instruction :=
  match res with
  | none => .inl (1, puts out msg)
  | some i => .inr (stored ++ [i])

/-- The list that starts at `program->start` when `parse` returns early: the
instructions stored so far, and the former list when none was stored. -/
def linked (program : Program) (stored : List Instruction) : List Instruction :=
  if stored = [] then program.start else stored

/-- The loop `while( index < len )` of `parse`. The arguments are the fuel, the
index, the instructions stored through `store` so far and the program (whose
`stdout` the loop prints to). The result is the value `parse` returns and the
program it leaves, or `none` when the fuel runs out. -/
def parse_loop (source : List Byte) (len : Nat) :
    Nat → Nat → List Instruction → Program → Option (Nat × Program)
  | 0, index, stored, program =>
    if index < len then none
    else some (0, { program with start := stored })
  | fuel + 1, index, stored, program =>
    if index < len then
      let c := at_index source index
      let fail := fun (out : List Byte) =>
        some (1, { program with start := linked program stored, stdout := out })
      let next := fun (r : Option Instruction × Nat × List Byte) (msg : String) =>
        match store_result r.1 stored r.2.2 msg with
        | .inl (_, out) => fail out
        | .inr stored => parse_loop source len fuel r.2.1 stored { program with stdout := r.2.2 }
      if c = ch 'p' ∨ c = ch 'P' then
        next (parse_print source index program.stdout) "Parse: failed in call to parse_print"
      else if c = ch 'b' ∨ c = ch 'B' then
        next (parse_byte source index program.stdout) "Parse: failed in call to parse_byte"
      else if c = ch 'l' ∨ c = ch 'L' then
        next (parse_line source index program.stdout) "Parse: failed in call to parse_line"
      else if c = ch 'e' ∨ c = ch 'E' then
        next (parse_expect source index program.stdout) "Parse: failed in call to parse_expect"
      else if c = ch 'w' ∨ c = ch 'W' then
        next (parse_write source index program.stdout) "Parse: failed in call to parse_write"
      else if c = ch 'q' ∨ c = ch 'Q' ∨ c = 0 then
        next (parse_quit source index program.stdout) "Parse: failed in call to parse_quit"
      else if c = ch '#' then
        match parse_comment fuel source index program.stdout with
        | none => none
        | some (r, index, out) =>
          if r ≠ 0 then fail (puts out "Parsing comment failed")
          else parse_loop source len fuel index stored { program with stdout := out }
      else if c = ch ' ' ∨ c = ch '\t' ∨ c = ch '\n' then
        parse_loop source len fuel index stored program
      else
        fail (printf program.stdout
          (bytes "Parse: Invalid character encountered '" ++ [c] ++ bytes "'\n"))
    else some (0, { program with start := stored })

/-- The function `parse`, for a source that is not the null pointer, run with
the given fuel. -/
def parse (fuel : Nat) (source : List Byte) (program : Program) : Option (Nat × Program) :=
  parse_loop source (strlen source) fuel 0 [] program

/-- A program state for examples: the instructions `start` and a file with
the bytes `data` at position `pos`, nothing printed so far. -/
def on_file (start : List Instruction) (data : List Byte) (pos : Nat) : Program :=
  { start := start, file := { data := data, pos := pos }, source := [], buf := [],
    buf_len := 0, stdout := [] }

/-- The `eval_` function that the `switch` of `execute` calls for an
instruction other than `quit`, applied to it: the value it returns and the
program state it leaves. For `quit` no function is called. -/
def eval_instruction (dev : Device) (p : Program) (cur : Instruction) : Nat × Program :=
  match cur with
  | .print num => eval_print p num
  | .line num => eval_line p num
  | .byte num => eval_byte p num
  | .expect str => eval_expect p str
  | .write str => eval_write dev p str
  | .quit => (0, p)

/-- The program state after the instructions of a list have been evaluated
one after the other, whatever they return. -/
def eval_all (dev : Device) : List Instruction → Program → Program
  | [], p => p
  | cur :: next, p => eval_all dev next (eval_instruction dev p cur).2

/-- Every instruction of the list returns `0` when the instructions are
evaluated one after the other from the state `p`. -/
def all_succeed (dev : Device) : List Instruction → Program → Prop
  | [], _ => True
  | cur :: next, p =>
    (eval_instruction dev p cur).1 = 0 ∧ all_succeed dev next (eval_instruction dev p cur).2

/-- A script that consists solely of spaces, tabs, newlines and `#` comments,
a comment running from its `#` to the next newline or to the end of the
script. The flag tells whether the bytes are read inside a comment. -/
def blank_from : Bool → List Byte → Bool
  | _, [] => true
  | in_comment, c :: rest =>
    if c = 0 then false
    else if in_comment then blank_from (decide (c ≠ ch '\n')) rest
    else if c = ch ' ' ∨ c = ch '\t' ∨ c = ch '\n' then blank_from false rest
    else if c = ch '#' then blank_from true rest
    else false

/-- A script of spaces, tabs, newlines and `#` comments only. -/
def blank_script (source : List Byte) : Bool := blank_from false source

/-- The bytes the `switch` of `parse` has a case for, the zero byte apart:
the command letters in either case, `#`, space, tab and newline. -/
def known_characters : List Byte :=
  [ch 'p', ch 'P', ch 'b', ch 'B', ch 'l', ch 'L', ch 'e', ch 'E', ch 'w', ch 'W',
    ch 'q', ch 'Q', ch '#', ch ' ', ch '\t', ch '\n']

/-- An instruction of the list is a `write`. -/
def has_write : List Instruction → Bool
  | [] => false
  | .write _ :: _ => true
  | _ :: next => has_write next

/-! ## Lemmas on the C library -/

theorem cstr_eq_self {s : List Byte} (h : 0 ∉ s) : cstr s = s := by
  unfold cstr
  rw [List.takeWhile_eq_self_iff]
  intro b hb
  have : b ≠ 0 := fun e => h (e ▸ hb)
  simpa using this

theorem strlen_eq_length {s : List Byte} (h : 0 ∉ s) : strlen s = s.length := by
  unfold strlen
  rw [cstr_eq_self h]

theorem strcmp_eq_zero_iff {s : List Byte} (h : 0 ∉ s) (buf : List Byte) :
    strcmp s buf = 0 ↔ cstr buf = s := by
  induction s generalizing buf with
  | nil =>
    cases buf with
    | nil => simp [strcmp, cstr]
    | cons b t =>
      by_cases hb : b = 0
      · simp [strcmp, cstr, hb]
      · have : (b : Int) ≠ 0 := by exact_mod_cast hb
        simp [strcmp, cstr, hb, this]
  | cons a s ih =>
    have ha : a ≠ 0 := fun e => h (by simp [e])
    have hs : 0 ∉ s := fun e => h (by simp [e])
    cases buf with
    | nil =>
      have : (a : Int) ≠ 0 := by exact_mod_cast ha
      simp [strcmp, cstr, this]
    | cons b t =>
      by_cases hab : a = b
      · subst hab
        have := ih hs t
        simp only [cstr] at this
        simp [strcmp, cstr, ha, this]
      · have hne : (a : Int) - (b : Int) ≠ 0 := by
          intro e
          apply hab
          have : (a : Int) = (b : Int) := by linarith
          exact_mod_cast this
        by_cases hb : b = 0
        · subst hb
          simp [strcmp, cstr, ha]
        · have hba : ¬ b = a := fun e => hab e.symm
          simp [strcmp, cstr, hab, hne, hb, hba]

theorem cstr_eq_of_length {buf : List Byte} (h : (cstr buf).length = buf.length) :
    cstr buf = buf := by
  induction buf with
  | nil => rfl
  | cons b t ih =>
    by_cases hb : b = 0
    · simp [cstr, hb] at h
    · simp only [cstr, List.takeWhile_cons, bne_iff_ne, ne_eq, hb, not_false_eq_true,
        decide_True, ite_true, List.length_cons, add_left_inj] at h ⊢
      simp only [cstr] at ih
      rw [ih h]

theorem strcmp_eq_zero_of_length {s buf : List Byte} (h : 0 ∉ s)
    (hl : buf.length = s.length) : strcmp s buf = 0 ↔ buf = s := by
  rw [strcmp_eq_zero_iff h]
  constructor
  · intro e
    have hp : (cstr buf).length = buf.length := by rw [e, hl]
    have : cstr buf = buf := cstr_eq_of_length hp
    rw [← this, e]
  · intro e
    rw [e, cstr_eq_self h]

/-! ## Lemmas on the stream -/

theorem fread_length (f : File) (n : Nat) :
    (fread f n).1.length = min n (f.data.length - f.pos) := by
  simp [fread, File.rest]

theorem fread_file (f : File) (n : Nat) :
    (fread f n).2 = { f with pos := f.pos + min n (f.data.length - f.pos) } := by
  simp [fread, File.rest]

/-- What `eval_expect` returns for a string without a zero byte, and the
file it leaves. -/
theorem eval_expect_some (p : Program) (str : List Byte) (h : 0 ∉ str) :
    (eval_expect p (some str)).1
        = (if (fread p.file str.length).1 = str then 0 else 1) ∧
    (eval_expect p (some str)).2.file = (fread p.file str.length).2 := by
  unfold eval_expect
  simp only [strlen_eq_length h]
  rcases fread p.file str.length with ⟨buf, file⟩
  by_cases hnr : buf.length = str.length
  · have hz := strcmp_eq_zero_of_length h hnr
    by_cases he : buf = str
    · have h0 := hz.mpr he
      simp [hnr, he, h0, Program.printf] at h0 ⊢
      simp [h0]
    · have : strcmp str buf ≠ 0 := fun e => he (hz.mp e)
      simp [hnr, he, this, Program.printf]
  · have he : buf ≠ str := fun e => hnr (by rw [e])
    simp [hnr, he, Program.printf]

/-- C1: for a string `str` without a zero byte, `eval_expect` returns `0`
exactly when at least `len(str)` bytes remain from the file position and those
bytes equal `str` byte for byte; in every other case (short read, mismatch,
zero bytes in the file included) it returns `1`; for the empty string it
returns `0`. -/
theorem eval_expect_succeeds_iff (p : Program) (str : List Byte) (h : 0 ∉ str) :
    ((eval_expect p (some str)).1 = 0 ↔
      str.length ≤ p.file.rest.length ∧ p.file.rest.take str.length = str) ∧
    ((eval_expect p (some str)).1 ≠ 0 → (eval_expect p (some str)).1 = 1) ∧
    (eval_expect p (some [])).1 = 0 := by
  have hs := (eval_expect_some p str h).1
  have hnil := (eval_expect_some p [] (by simp)).1
  refine ⟨?_, ?_, ?_⟩
  · rw [hs]
    have hread : (fread p.file str.length).1 = p.file.rest.take str.length := rfl
    rw [hread]
    constructor
    · intro e
      have he : p.file.rest.take str.length = str := by
        by_contra hne
        simp [hne] at e
      refine ⟨?_, he⟩
      have hl := congrArg List.length he
      rw [List.length_take] at hl
      omega
    · rintro ⟨_, he⟩
      simp [he]
  · rw [hs]
    split <;> simp
  · rw [hnil]
    simp [fread]

/-- C1, at three files: `e/ab/` fails on the bytes `a 0 b`, succeeds on
`a b c`, and fails with `1` when a single byte is left. -/
theorem eval_expect_succeeds_iff_witness :
    (0 : Byte) ∉ [97, 98] ∧
    (eval_expect (on_file [] [97, 0, 98] 0) (some [97, 98])).1 ≠ 0 ∧
    (eval_expect (on_file [] [97, 98, 99] 0) (some [97, 98])).1 = 0 ∧
    (eval_expect (on_file [] [97, 98, 99] 2) (some [97, 98])).1 = 1 := by
  have h : (0 : Byte) ∉ [97, 98] := by decide
  refine ⟨h, ?_, ?_, ?_⟩
  · intro e
    exact absurd ((eval_expect_succeeds_iff (on_file [] [97, 0, 98] 0) [97, 98] h).1.mp e)
      (by decide)
  · exact (eval_expect_succeeds_iff (on_file [] [97, 98, 99] 0) [97, 98] h).1.mpr (by decide)
  · apply (eval_expect_succeeds_iff (on_file [] [97, 98, 99] 2) [97, 98] h).2.1
    intro e
    exact absurd ((eval_expect_succeeds_iff (on_file [] [97, 98, 99] 2) [97, 98] h).1.mp e)
      (by decide)

theorem store_pos (f : File) (w : List Byte) : (store f w).pos = f.pos + w.length := by
  unfold store
  split <;> simp_all

theorem store_length (f : File) (w : List Byte) :
    (store f w).data.length
      = if w = [] then f.data.length else max f.data.length (f.pos + w.length) := by
  unfold store
  split
  · rfl
  · simp only [List.length_append, List.length_take, List.length_drop, List.length_replicate]
    omega

theorem store_written (f : File) (w : List Byte) :
    ((store f w).data.drop f.pos).take w.length = w := by
  unfold store
  split
  · simp_all
  · have hk : (List.take f.pos (f.data ++ List.replicate (f.pos - f.data.length) 0)).length
        = f.pos := by
      simp only [List.length_take, List.length_append, List.length_replicate]
      omega
    simp only [List.append_assoc]
    generalize List.take f.pos (f.data ++ List.replicate (f.pos - f.data.length) 0) = pre at hk
    rw [← hk, List.drop_left, List.take_left]

theorem store_outside (f : File) (w : List Byte) (i : Nat)
    (h : i < f.pos ∨ f.pos + w.length ≤ i) :
    (store f w).data[i]?
      = if i < f.data.length then f.data[i]?
        else if i < f.pos ∧ w ≠ [] then some 0 else none := by
  unfold store
  by_cases hs : w = []
  · subst hs
    by_cases hi : i < f.data.length
    · simp [hi]
    · simp only [if_true, hi, if_false, ne_eq, not_true_eq_false, and_false]
      exact List.getElem?_eq_none (by omega)
  · simp only [hs, if_false, ne_eq, not_false_eq_true, and_true]
    have hk : (List.take f.pos (f.data ++ List.replicate (f.pos - f.data.length) 0)).length
        = f.pos := by
      simp only [List.length_take, List.length_append, List.length_replicate]
      omega
    have hold : ∀ j, (f.data ++ List.replicate (f.pos - f.data.length) 0)[j]?
        = if j < f.data.length then f.data[j]? else if j < f.pos then some 0 else none := by
      intro j
      by_cases hj : j < f.data.length
      · rw [List.getElem?_append_left hj]
        simp [hj]
      · rw [List.getElem?_append_right (by omega), List.getElem?_replicate]
        simp only [hj, if_false]
        by_cases hj2 : j < f.pos
        · simp [hj2]; omega
        · simp [hj2]; omega
    rcases h with h | h
    · rw [List.append_assoc, List.getElem?_append_left (by omega), List.getElem?_take_of_lt h,
        hold]
    · rw [List.getElem?_append_right (by simp only [List.length_append, hk]; omega),
        List.getElem?_drop, hold]
      simp only [List.length_append, hk]
      have e : f.pos + w.length + (i - (f.pos + w.length)) = i := by omega
      rw [e]

/-- The count `fwrite` returns: the bytes offered, or the fewer bytes the
device takes. -/
theorem fwrite_count (dev : Device) (f : File) (s : List Byte) :
    (fwrite dev f s).1 = min (dev f s.length) s.length := by
  simp [fwrite]

/-- A write whose count is the number of bytes offered has stored them all. -/
theorem fwrite_of_count (dev : Device) (f : File) (s : List Byte)
    (h : (fwrite dev f s).1 = s.length) : (fwrite dev f s).2 = store f s := by
  have hc := fwrite_count dev f s
  rw [h] at hc
  have hle : s.length ≤ dev f s.length := by omega
  simp [fwrite, List.take_of_length_le hle]

theorem fwrite_regular (f : File) (s : List Byte) :
    fwrite regular f s = (s.length, store f s) := by
  simp [fwrite, regular]

/-- What `eval_write` returns for a string without a zero byte, and the file
it leaves. -/
theorem eval_write_some (dev : Device) (p : Program) (str : List Byte) (h : 0 ∉ str) :
    (eval_write dev p (some str)).1
      = (if (fwrite dev p.file str).1 ≠ str.length then 1 else 0) ∧
    (eval_write dev p (some str)).2.file = (fwrite dev p.file str).2 := by
  unfold eval_write
  simp only [strlen_eq_length h, List.take_length]
  rcases fwrite dev p.file str with ⟨nw, file⟩
  by_cases hn : nw = str.length
  · simp [hn]
  · simp [hn, Program.printf]

/-- C2: for every device behind the stream, a string `s` of length `n`
without a zero byte and a file at position `k`: a `Write(s)` that returns `0`
leaves the bytes `k..k+n-1` equal to `s`, leaves every byte of the file
outside that range as it was, gives the file the length `max(length, k+n)`
(its own length when `n = 0`: it grows only when `k+n` exceeds its length) and
leaves the position at `k+n`; `eval_write` returns `1` exactly when the count
returned by `fwrite`, the number of bytes the device took, differs from `n`,
and `0` otherwise; after a short write the leading bytes the device took are
stored and the position is behind them. -/
theorem eval_write_effect (dev : Device) (p : Program) (s : List Byte) (h : 0 ∉ s) :
    ((eval_write dev p (some s)).1 = 0 →
      ((eval_write dev p (some s)).2.file.data.drop p.file.pos).take s.length = s ∧
      (∀ i, i < p.file.data.length → (i < p.file.pos ∨ p.file.pos + s.length ≤ i) →
        (eval_write dev p (some s)).2.file.data[i]? = p.file.data[i]?) ∧
      (eval_write dev p (some s)).2.file.data.length
        = (if s = [] then p.file.data.length
           else max p.file.data.length (p.file.pos + s.length)) ∧
      (eval_write dev p (some s)).2.file.pos = p.file.pos + s.length) ∧
    (eval_write dev p (some s)).1 = (if (fwrite dev p.file s).1 ≠ s.length then 1 else 0) ∧
    (fwrite dev p.file s).1 = min (dev p.file s.length) s.length ∧
    (eval_write dev p (some s)).2.file = store p.file (s.take (dev p.file s.length)) := by
  obtain ⟨hret, hfile⟩ := eval_write_some dev p s h
  refine ⟨fun h0 => ?_, hret, fwrite_count dev p.file s, by rw [hfile]; rfl⟩
  have hcount : (fwrite dev p.file s).1 = s.length := by
    by_contra hne
    rw [hret] at h0
    simp [hne] at h0
  rw [hfile, fwrite_of_count dev p.file s hcount]
  refine ⟨store_written p.file s, ?_, store_length p.file s, store_pos p.file s⟩
  intro i hi hout
  rw [store_outside p.file s i hout]
  simp [hi]

/-- C2, at the file `1 2 3 4 5` with position 1 and the string `h i`: on a
device that takes every byte the write returns `0` and leaves `1 h i 4 5`
with position 3; on a file that may not grow beyond 2 bytes the device takes
one byte, the write returns `1` and leaves `1 h 3 4 5` with position 2. -/
theorem eval_write_effect_witness :
    (0 : Byte) ∉ [104, 105] ∧
    (eval_write regular (on_file [] [1, 2, 3, 4, 5] 1) (some [104, 105])).1 = 0 ∧
    (eval_write regular (on_file [] [1, 2, 3, 4, 5] 1) (some [104, 105])).2.file
      = { data := [1, 104, 105, 4, 5], pos := 3 } ∧
    (eval_write regular (on_file [] [1, 2, 3, 4, 5] 1) (some [104, 105])).2.file.pos = 1 + 2 ∧
    (eval_write (limited 2) (on_file [] [1, 2, 3, 4, 5] 1) (some [104, 105])).1 = 1 ∧
    (eval_write (limited 2) (on_file [] [1, 2, 3, 4, 5] 1) (some [104, 105])).2.file
      = { data := [1, 104, 3, 4, 5], pos := 2 } :=
  ⟨by decide,
    ((eval_write_effect regular (on_file [] [1, 2, 3, 4, 5] 1) [104, 105]
      (by decide)).2.1).trans (by decide),
    by decide,
    ((eval_write_effect regular (on_file [] [1, 2, 3, 4, 5] 1) [104, 105] (by decide)).1
      (by decide)).2.2.2,
    ((eval_write_effect (limited 2) (on_file [] [1, 2, 3, 4, 5] 1) [104, 105]
      (by decide)).2.1).trans (by decide),
    ((eval_write_effect (limited 2) (on_file [] [1, 2, 3, 4, 5] 1) [104, 105]
      (by decide)).2.2.2).trans (by decide)⟩

/-! ## Lemmas on `execute` -/

theorem execute_loop_cons {dev : Device} (cur : Instruction) (next : List Instruction)
    (p : Program) :
    execute_loop dev (cur :: next) p
      = if cur = .quit then (0, p)
        else if (eval_instruction dev p cur).1 ≠ 0 then eval_instruction dev p cur
        else execute_loop dev next (eval_instruction dev p cur).2 := by
  cases cur <;> simp [execute_loop, eval_instruction]

theorem eval_byte_of_nonneg (p : Program) (k : Int) (hk : 0 ≤ k) :
    eval_byte p k = (0, { p with file := { p.file with pos := k.toNat } }) := by
  have : ¬ k < 0 := by omega
  simp [eval_byte, fseek, this]

/-- C3: for every program state, every offset `k >= 0` and every string `s`
without a zero byte, `execute` returns `0` on the sequence `GotoByte(k)`,
`Write(s)`, `GotoByte(k)`, `Expect(s)`, `Quit`, the file being a regular file
whose device takes every byte of the write. -/
theorem write_expect_round_trip (p : Program) (k : Int) (s : List Byte)
    (hk : 0 ≤ k) (hs : 0 ∉ s) :
    (execute regular { p with start :=
      [.byte k, .write (some s), .byte k, .expect (some s), .quit] }).1 = 0 := by
  unfold execute
  simp only [execute_loop_cons, eval_instruction, eval_byte_of_nonneg _ k hk]
  obtain ⟨hw, hwf⟩ := eval_write_some regular
    { p with start := [.byte k, .write (some s), .byte k, .expect (some s), .quit],
             file := { p.file with pos := k.toNat } } s hs
  rw [fwrite_regular] at hw hwf
  simp only [ne_eq, not_true_eq_false, if_false] at hw
  obtain ⟨he, _⟩ := eval_expect_some
    { (eval_write regular
        { p with start := [.byte k, .write (some s), .byte k, .expect (some s), .quit],
                 file := { p.file with pos := k.toNat } } (some s)).2 with
      file := { (eval_write regular
        { p with start := [.byte k, .write (some s), .byte k, .expect (some s), .quit],
                 file := { p.file with pos := k.toNat } } (some s)).2.file with
        pos := k.toNat } } s hs
  have hread : (fread { (eval_write regular
        { p with start := [.byte k, .write (some s), .byte k, .expect (some s), .quit],
                 file := { p.file with pos := k.toNat } } (some s)).2.file with
        pos := k.toNat } s.length).1 = s := by
    rw [hwf]
    exact store_written { p.file with pos := k.toNat } s
  simp only [hread, if_true] at he
  simp [hw, he]

/-- C3, at the documented string: on the file `a b` the sequence `b1`,
`w/hello/`, `b1`, `e/hello/`, `q` succeeds. -/
theorem write_expect_round_trip_witness :
    (0 : Int) ≤ 1 ∧ (0 : Byte) ∉ [104, 101, 108, 108, 111] ∧
    (execute regular { on_file [] [97, 98] 0 with start :=
      [.byte 1, .write (some [104, 101, 108, 108, 111]), .byte 1,
        .expect (some [104, 101, 108, 108, 111]), .quit] }).1 = 0 :=
  ⟨by decide, by decide,
    write_expect_round_trip (on_file [] [97, 98] 0) 1 [104, 101, 108, 108, 111]
      (by decide) (by decide)⟩

theorem execute_loop_append {dev : Device} (pre rest : List Instruction) (q : Program)
    (hq : Instruction.quit ∉ pre) (hpre : all_succeed dev pre q) :
    execute_loop dev (pre ++ rest) q = execute_loop dev rest (eval_all dev pre q) := by
  induction pre generalizing q with
  | nil => rfl
  | cons c cs ih =>
    have hc : c ≠ Instruction.quit := fun e => hq (by simp [e])
    have hcs : Instruction.quit ∉ cs := fun e => hq (by simp [e])
    obtain ⟨h0, hrest⟩ := hpre
    rw [List.cons_append, execute_loop_cons]
    simp only [hc, if_false, h0, ne_eq, not_true_eq_false]
    exact ih _ hcs hrest

theorem all_succeed_of_execute_loop {dev : Device} (l : List Instruction) (q : Program)
    (h : (execute_loop dev l q).1 = 0) :
    all_succeed dev (l.takeWhile (fun c => decide (c ≠ Instruction.quit))) q := by
  induction l generalizing q with
  | nil => trivial
  | cons c cs ih =>
    by_cases hc : c = Instruction.quit
    · simp [hc, all_succeed]
    · rw [execute_loop_cons] at h
      simp only [hc, if_false] at h
      by_cases h0 : (eval_instruction dev q c).1 = 0
      · simp only [h0, ne_eq, not_true_eq_false, if_false] at h
        simp only [List.takeWhile_cons, hc, ne_eq, not_false_eq_true, decide_True, if_true]
        exact ⟨h0, ih _ h⟩
      · simp only [h0, ne_eq, not_false_eq_true, if_true] at h

/-- C4: `execute` evaluates the instructions in order and stops at the first
one that fails. When `i` is an instruction ahead of any `Quit`, every
instruction before it returns `0` and `i` returns a value other than `0`, then
`execute` returns that value together with the very state `i` leaves,
whatever follows `i`; and when `execute` returns `0`, every instruction ahead
of the first `Quit` returned `0`. -/
theorem execute_stops_at_first_failure (dev : Device) (p : Program) :
    (∀ (pre : List Instruction) (i : Instruction) (post : List Instruction),
      p.start = pre ++ i :: post → Instruction.quit ∉ pre → i ≠ Instruction.quit →
      all_succeed dev pre p → (eval_instruction dev (eval_all dev pre p) i).1 ≠ 0 →
      execute dev p = eval_instruction dev (eval_all dev pre p) i ∧ (execute dev p).1 ≠ 0) ∧
    ((execute dev p).1 = 0 →
      all_succeed dev (p.start.takeWhile (fun c => decide (c ≠ Instruction.quit))) p) := by
  refine ⟨?_, all_succeed_of_execute_loop p.start p⟩
  intro pre i post hstart hq hi hpre hfail
  have he : execute dev p = eval_instruction dev (eval_all dev pre p) i := by
    unfold execute
    rw [hstart, execute_loop_append pre (i :: post) p hq hpre, execute_loop_cons]
    simp only [hi, if_false, hfail, ne_eq, not_false_eq_true, if_true]
  exact ⟨he, by rw [he]; exact hfail⟩

/-- C4, at the sequence `b2`, `e/zz/`, `w/A/` on the file `a b c d`: the
expectation fails, `execute` returns `1` with the position behind the bytes
read, and the write is not evaluated. -/
theorem execute_stops_at_first_failure_witness :
    (execute regular (on_file [.byte 2, .expect (some [122, 122]), .write (some [65])]
      [97, 98, 99, 100] 0)).1 = 1 ∧
    (execute regular (on_file [.byte 2, .expect (some [122, 122]), .write (some [65])]
      [97, 98, 99, 100] 0)).2.file = { data := [97, 98, 99, 100], pos := 4 } := by
  have h := (execute_stops_at_first_failure regular
    (on_file [.byte 2, .expect (some [122, 122]), .write (some [65])] [97, 98, 99, 100] 0)).1
    [.byte 2] (.expect (some [122, 122])) [.write (some [65])] rfl (by decide) (by decide)
    ⟨by decide, trivial⟩ (by decide)
  rw [h.1]
  exact ⟨by decide, by decide⟩

theorem eval_instruction_start {dev : Device} (p : Program) (l : List Instruction)
    (c : Instruction) :
    eval_instruction dev { p with start := l } c
      = ((eval_instruction dev p c).1, { (eval_instruction dev p c).2 with start := l }) := by
  cases c with
  | print num =>
    simp only [eval_instruction, eval_print, Program.puts, Program.printf]
    split_ifs <;> rfl
  | line num => rfl
  | byte num =>
    simp only [eval_instruction, eval_byte, Program.puts]
    split_ifs <;> rfl
  | expect str =>
    cases str with
    | none => rfl
    | some str =>
      simp only [eval_instruction, eval_expect, Program.printf]
      split_ifs <;> rfl
  | write str =>
    cases str with
    | none => rfl
    | some str =>
      simp only [eval_instruction, eval_write, Program.printf]
      split_ifs <;> rfl
  | quit => rfl

theorem execute_loop_start {dev : Device} (l : List Instruction) (p : Program)
    (s : List Instruction) :
    execute_loop dev l { p with start := s }
      = ((execute_loop dev l p).1, { (execute_loop dev l p).2 with start := s }) := by
  induction l generalizing p with
  | nil => rfl
  | cons c cs ih =>
    rw [execute_loop_cons, execute_loop_cons, eval_instruction_start]
    by_cases hc : c = Instruction.quit
    · simp [hc]
    · by_cases h0 : (eval_instruction dev p c).1 = 0
      · simp only [hc, if_false, h0, ne_eq, not_true_eq_false]
        exact ih _
      · simp [hc, h0]

theorem execute_with_start {dev : Device} (p : Program) (l : List Instruction) :
    execute dev { p with start := l }
      = ((execute_loop dev l p).1, { (execute_loop dev l p).2 with start := l }) :=
  execute_loop_start l p l

theorem execute_loop_quit {dev : Device} (pre post : List Instruction) (q : Program) :
    execute_loop dev (pre ++ Instruction.quit :: post) q
      = execute_loop dev (pre ++ [Instruction.quit]) q := by
  induction pre generalizing q with
  | nil => simp [execute_loop]
  | cons c cs ih =>
    rw [List.cons_append, List.cons_append, execute_loop_cons, execute_loop_cons, ih]

/-- C5: what follows a `Quit` is never evaluated. `execute` on
`pre ++ [Quit] ++ post` returns the value it returns on `pre ++ [Quit]` and
leaves the same file and the same output; on `[Quit] ++ post` it returns `0`
and leaves the program state, so the contents and the position of the file,
as it was. -/
theorem execute_ignores_after_quit (dev : Device) (p : Program)
    (pre post : List Instruction) :
    (execute dev { p with start := pre ++ [Instruction.quit] ++ post }).1
      = (execute dev { p with start := pre ++ [Instruction.quit] }).1 ∧
    (execute dev { p with start := pre ++ [Instruction.quit] ++ post }).2.file
      = (execute dev { p with start := pre ++ [Instruction.quit] }).2.file ∧
    (execute dev { p with start := pre ++ [Instruction.quit] ++ post }).2.stdout
      = (execute dev { p with start := pre ++ [Instruction.quit] }).2.stdout ∧
    execute dev { p with start := [Instruction.quit] ++ post }
      = (0, { p with start := [Instruction.quit] ++ post }) := by
  have h : execute_loop dev (pre ++ [Instruction.quit] ++ post) p
      = execute_loop dev (pre ++ [Instruction.quit]) p := by
    rw [List.append_assoc]
    exact execute_loop_quit pre post p
  have hq : execute_loop dev ([Instruction.quit] ++ post) p = (0, p) := rfl
  rw [execute_with_start, execute_with_start, execute_with_start, h, hq]
  exact ⟨rfl, rfl, rfl, rfl⟩

/-- C5, at the documented script `q e/neverseen/` on the file `a b c`:
`execute` returns `0` and the file is untouched, although the expectation
evaluated on that file returns `1`. -/
theorem execute_ignores_after_quit_witness :
    execute regular { on_file [] [97, 98, 99] 0 with
        start := [Instruction.quit] ++ [.expect (some (bytes "neverseen"))] }
      = (0, { on_file [] [97, 98, 99] 0 with
        start := [Instruction.quit] ++ [.expect (some (bytes "neverseen"))] }) ∧
    (eval_expect (on_file [] [97, 98, 99] 0) (some (bytes "neverseen"))).1 = 1 :=
  ⟨(execute_ignores_after_quit regular (on_file [] [97, 98, 99] 0) []
      [.expect (some (bytes "neverseen"))]).2.2.2, by decide⟩

/-! ## Lemmas on the reading instructions -/

theorem eval_expect_file (p : Program) (str : List Byte) :
    (eval_expect p (some str)).2.file = (fread p.file (strlen str)).2 := by
  unfold eval_expect
  simp only [Program.printf]
  split_ifs <;> rfl

/-- C6: for every program state and every string, `eval_expect` leaves the
file position advanced by the number of bytes read, the smaller of the length
of the string and the number of bytes that remain, whatever it returns, and
leaves the contents of the file as they were; `Expect("abc")` on a file whose
next three bytes are `xyz` returns `1` and leaves the position advanced by 3. -/
theorem eval_expect_position (p : Program) (str : List Byte) :
    (eval_expect p (some str)).2.file.pos
      = p.file.pos + min (strlen str) (p.file.data.length - p.file.pos) ∧
    (eval_expect p (some str)).2.file.data = p.file.data ∧
    (str = bytes "abc" → p.file.rest.take 3 = bytes "xyz" →
      (eval_expect p (some str)).1 = 1 ∧
      (eval_expect p (some str)).2.file.pos = p.file.pos + 3) := by
  have hf := eval_expect_file p str
  rw [fread_file] at hf
  refine ⟨by rw [hf], by rw [hf], ?_⟩
  intro hs hx
  subst hs
  have hz : (0 : Byte) ∉ bytes "abc" := by decide
  have hlen : (bytes "abc").length = 3 := rfl
  have hret := (eval_expect_some p (bytes "abc") hz).1
  have hread : (fread p.file (bytes "abc").length).1 = bytes "xyz" := hx
  have hne : bytes "xyz" ≠ bytes "abc" := by decide
  rw [hread] at hret
  simp only [hne, if_false] at hret
  refine ⟨hret, ?_⟩
  rw [hf, strlen_eq_length hz, hlen]
  have hl := congrArg List.length hx
  rw [List.length_take, File.rest, List.length_drop] at hl
  have h3 : (bytes "xyz").length = 3 := rfl
  rw [h3] at hl
  show p.file.pos + min 3 (p.file.data.length - p.file.pos) = p.file.pos + 3
  omega

/-- C6, at the file `x y z w` with position 0: `Expect("abc")` returns `1`
and leaves position 3; on the file `a` it reads the one byte left. -/
theorem eval_expect_position_witness :
    (eval_expect (on_file [] (bytes "xyzw") 0) (some (bytes "abc"))).1 = 1 ∧
    (eval_expect (on_file [] (bytes "xyzw") 0) (some (bytes "abc"))).2.file.pos = 0 + 3 ∧
    (eval_expect (on_file [] (bytes "a") 0) (some (bytes "abc"))).2.file.pos = 1 :=
  ⟨((eval_expect_position (on_file [] (bytes "xyzw") 0) (bytes "abc")).2.2 rfl
      (by decide)).1,
    ((eval_expect_position (on_file [] (bytes "xyzw") 0) (bytes "abc")).2.2 rfl
      (by decide)).2,
    (eval_expect_position (on_file [] (bytes "a") 0) (bytes "abc")).1.trans (by decide)⟩

theorem wrap_int_of_range (x : Int) (hlo : -2147483648 ≤ x) (hhi : x < 2147483648) :
    wrap_int x = x := by
  unfold wrap_int
  omega

theorem to_size_t_of_range (x : Int) (hlo : 0 ≤ x) (hhi : x < 18446744073709551616) :
    to_size_t x = x.toNat := by
  unfold to_size_t
  rw [Int.emod_eq_of_lt hlo hhi]

/-- The count `eval_print` passes to `fread` for an argument in the range
where `1 + num` does not overflow. -/
theorem eval_print_in_range (p : Program) (n : Int) (hn : 0 ≤ n) (hmax : n < INT_MAX) :
    eval_print p n
      = (0, Program.printf
          { p with file := (fread p.file (if n = 0 then 100 else n.toNat)).2 }
          ([ch '\''] ++ cstr (fread p.file (if n = 0 then 100 else n.toNat)).1
            ++ [ch '\'', ch '\n'])) := by
  unfold INT_MAX at hmax
  unfold eval_print
  by_cases h0 : n = 0
  · subst h0
    have hc : calloc (to_size_t (wrap_int (1 + 100))) = true := by decide
    have ht : to_size_t 100 = 100 := by decide
    simp only [if_true, hc, ht, Bool.true_eq_false, if_false]
  · have hw : wrap_int (1 + n) = 1 + n := wrap_int_of_range _ (by omega) (by omega)
    have hs : to_size_t (1 + n) = (1 + n).toNat := to_size_t_of_range _ (by omega) (by omega)
    have ht : to_size_t n = n.toNat := to_size_t_of_range _ hn (by omega)
    have hc : calloc (to_size_t (wrap_int (1 + n))) = true := by
      rw [hw, hs]
      unfold calloc
      simp only [decide_eq_true_eq]
      omega
    simp only [h0, if_false, hc, ht, Bool.true_eq_false]

/-- C7 fails on the code at the greatest `int`: for `n = INT_MAX` the sum
`1 + num` overflows, the size handed to `calloc` is refused and `eval_print`
returns `1`, reads nothing and leaves the file where it was. For every
`n >= 0` below `INT_MAX` the claim holds: `eval_print` returns `0`; with
`m = 100` when `n = 0` and `m = n` otherwise, it reads the first `m` of the
remaining bytes, all of them when fewer than `m` remain (so
`min(m, bytes remaining)` bytes, the end of the file being no error),
advances the file position by that number and leaves the contents of the file
as they were. -/
theorem eval_print_reads (p : Program) :
    eval_print p INT_MAX = (1, p.puts "Call to calloc failed in eval_print") ∧
    (eval_print p INT_MAX).2.file = p.file ∧
    (∀ n : Int, 0 ≤ n → n < INT_MAX →
      (eval_print p n).1 = 0 ∧
      (eval_print p n).2.file = (fread p.file (if n = 0 then 100 else n.toNat)).2 ∧
      (fread p.file (if n = 0 then 100 else n.toNat)).1
        = p.file.rest.take (if n = 0 then 100 else n.toNat) ∧
      (fread p.file (if n = 0 then 100 else n.toNat)).1.length
        = min (if n = 0 then 100 else n.toNat) (p.file.data.length - p.file.pos) ∧
      (eval_print p n).2.file.pos
        = p.file.pos
          + min (if n = 0 then 100 else n.toNat) (p.file.data.length - p.file.pos) ∧
      (eval_print p n).2.file.data = p.file.data) := by
  have hmax : eval_print p INT_MAX = (1, p.puts "Call to calloc failed in eval_print") := by
    have hc : calloc (to_size_t (wrap_int (1 + INT_MAX))) = false := by decide
    have h0 : ¬ INT_MAX = 0 := by decide
    unfold eval_print
    simp only [h0, if_false, hc, if_true]
  refine ⟨hmax, by rw [hmax]; rfl, ?_⟩
  intro n hn hlt
  have he := eval_print_in_range p n hn hlt
  have hfile : (eval_print p n).2.file
      = (fread p.file (if n = 0 then 100 else n.toNat)).2 := by rw [he]; rfl
  refine ⟨by rw [he], hfile, rfl, fread_length _ _, ?_, ?_⟩
  · rw [hfile, fread_file]
  · rw [hfile, fread_file]

/-- C7, at the file `a b c d e` with position 1: `Print(INT_MAX)` returns
`1` and leaves position 1; `p2` returns `0` and leaves position 3; `p` with
no argument reads the four bytes left. -/
theorem eval_print_reads_witness :
    (eval_print (on_file [] (bytes "abcde") 1) 2147483647).1 = 1 ∧
    (eval_print (on_file [] (bytes "abcde") 1) 2147483647).2.file.pos = 1 ∧
    (0 : Int) ≤ 2 ∧ (2 : Int) < INT_MAX ∧
    (eval_print (on_file [] (bytes "abcde") 1) 2).1 = 0 ∧
    (eval_print (on_file [] (bytes "abcde") 1) 2).2.file.pos = 3 ∧
    (eval_print (on_file [] (bytes "abcde") 1) 0).2.file.pos = 5 :=
  ⟨congrArg Prod.fst (eval_print_reads (on_file [] (bytes "abcde") 1)).1,
    congrArg File.pos (eval_print_reads (on_file [] (bytes "abcde") 1)).2.1,
    by decide, by decide,
    ((eval_print_reads (on_file [] (bytes "abcde") 1)).2.2 2 (by decide) (by decide)).1,
    ((eval_print_reads (on_file [] (bytes "abcde") 1)).2.2 2 (by decide)
      (by decide)).2.2.2.2.1.trans (by decide),
    ((eval_print_reads (on_file [] (bytes "abcde") 1)).2.2 0 (by decide)
      (by decide)).2.2.2.2.1.trans (by decide)⟩

/-- C8, as stated, fails on the file `A 0 B`: fewer than 100 bytes remain,
`Print` with no argument returns `0`, and the payload between the quotes is
`A`, not the three remaining bytes. -/
theorem eval_print_payload_counterexample :
    (on_file [] [65, 0, 66] 0).file.rest.length < 100 ∧
    (eval_print (on_file [] [65, 0, 66] 0) 0).2.stdout = [ch '\'', 65, ch '\'', ch '\n'] ∧
    (eval_print (on_file [] [65, 0, 66] 0) 0).2.stdout
      ≠ (on_file [] [65, 0, 66] 0).stdout
          ++ [ch '\''] ++ (on_file [] [65, 0, 66] 0).file.rest ++ [ch '\'', ch '\n'] := by
  decide

/-- C8, amended: when fewer than 100 bytes remain after the file position,
`Print` with no argument returns `0` and prints, between single quotes and
followed by a newline, the remaining bytes up to their first zero byte; when
none of the remaining bytes is zero, the payload is exactly the remaining
bytes. -/
theorem eval_print_payload (p : Program) (h : p.file.rest.length < 100) :
    (eval_print p 0).1 = 0 ∧
    (eval_print p 0).2.stdout
      = p.stdout ++ [ch '\''] ++ cstr p.file.rest ++ [ch '\'', ch '\n'] ∧
    (0 ∉ p.file.rest →
      (eval_print p 0).2.stdout
        = p.stdout ++ [ch '\''] ++ p.file.rest ++ [ch '\'', ch '\n']) := by
  have hread : (fread p.file 100).1 = p.file.rest := by
    show p.file.rest.take 100 = p.file.rest
    exact List.take_of_length_le (by omega)
  have he := eval_print_in_range p 0 (le_refl 0) (by decide)
  simp only [if_true] at he
  have hout : (eval_print p 0).2.stdout
      = p.stdout ++ [ch '\''] ++ cstr p.file.rest ++ [ch '\'', ch '\n'] := by
    rw [he, hread]
    simp [Program.printf, printf]
  refine ⟨by rw [he], hout, ?_⟩
  intro hz
  rw [hout, cstr_eq_self hz]

/-- C8, amended, at the file `h i` with position 0: the output is the line
`'hi'`. -/
theorem eval_print_payload_witness :
    (on_file [] (bytes "hi") 0).file.rest.length < 100 ∧
    (eval_print (on_file [] (bytes "hi") 0) 0).2.stdout = bytes "'hi'\n" :=
  ⟨by decide, (eval_print_payload (on_file [] (bytes "hi") 0) (by decide)).2.1.trans
    (by decide)⟩

/-! ## Lemmas on `parse` -/

theorem parse_comment_loop_none (source : List Byte) (fuel index : Nat) :
    parse_comment_loop source fuel index = none := by
  induction fuel generalizing index with
  | zero => rfl
  | succ fuel ih =>
    unfold parse_comment_loop
    simp only
    split_ifs
    · exact ih index
    · exact ih (index + 1)

theorem parse_comment_none (fuel : Nat) (source : List Byte) (index : Nat) (out : List Byte)
    (h : at_index source index = ch '#') : parse_comment fuel source index out = none := by
  unfold parse_comment
  simp [h, parse_comment_loop_none]

/-- The loop of `parse` never ends at an index that holds a space, a tab, a
newline, a `#`, a `q` or a `Q`: the index is not moved. -/
theorem parse_loop_stuck (source : List Byte) (len fuel index : Nat)
    (stored : List Instruction) (program : Program) (hi : index < len)
    (hc : at_index source index = ch ' ' ∨ at_index source index = ch '\t' ∨
      at_index source index = ch '\n' ∨ at_index source index = ch '#' ∨
      at_index source index = ch 'q' ∨ at_index source index = ch 'Q') :
    parse_loop source len fuel index stored program = none := by
  induction fuel generalizing stored program with
  | zero => simp [parse_loop, hi]
  | succ fuel ih =>
    unfold parse_loop
    simp only [hi, if_true]
    rcases hc with h | h | h | h | h | h
    · simp [h, ch]
      exact ih _ _
    · simp [h, ch]
      exact ih _ _
    · simp [h, ch]
      exact ih _ _
    · have hcm := parse_comment_none fuel source index program.stdout h
      simp [h, ch] at hcm ⊢
      simp [hcm]
    · simp [h, ch, parse_quit, new_instruction, store_result]
      exact ih _ _
    · simp [h, ch, parse_quit, new_instruction, store_result]
      exact ih _ _

theorem strlen_cons_pos (c : Byte) (rest : List Byte) (h : c ≠ 0) :
    0 < strlen (c :: rest) := by
  simp [strlen, cstr, h]

theorem parse_nil (fuel : Nat) (program : Program) :
    parse fuel [] program = some (0, { program with start := [] }) := by
  cases fuel <;> rfl

/-- C9 fails on the code: on the scripts of one space, of the letter `q` and
of the comment `# c` followed by a newline, `parse` does not return, whatever
fuel it is given, because the index is never moved; the empty script and the
script `x` show that `parse` returns where the loop does end. -/
theorem parse_does_not_terminate (fuel : Nat) (program : Program) :
    parse fuel (bytes " ") program = none ∧
    parse fuel (bytes "q") program = none ∧
    parse fuel (bytes "# c\n") program = none ∧
    parse fuel [] program = some (0, { program with start := [] }) ∧
    (parse (fuel + 1) (bytes "x") program).map (fun r => r.1) = some 1 := by
  refine ⟨?_, ?_, ?_, parse_nil fuel program, ?_⟩
  · exact parse_loop_stuck _ _ fuel 0 [] program (by decide) (by decide)
  · exact parse_loop_stuck _ _ fuel 0 [] program (by decide) (by decide)
  · exact parse_loop_stuck _ _ fuel 0 [] program (by decide) (by decide)
  · simp [parse, parse_loop, strlen, cstr, bytes, at_index, ch]

/-- C10 fails on the code: for every script of spaces, tabs, newlines and `#`
comments that is not empty, `parse` does not return, whatever fuel it is
given; for the empty script it returns `0` with the empty sequence, which
holds no `Quit`, and `execute` on that sequence returns `0` and changes
nothing. -/
theorem parse_blank_script (dev : Device) (source : List Byte) (h : blank_script source = true) :
    (source ≠ [] → ∀ (fuel : Nat) (program : Program), parse fuel source program = none) ∧
    (source = [] → ∀ (fuel : Nat) (program : Program),
      parse fuel source program = some (0, { program with start := [] }) ∧
      List.count Instruction.quit ({ program with start := [] } : Program).start = 0 ∧
      execute dev { program with start := [] } = (0, { program with start := [] })) := by
  constructor
  · intro hne fuel program
    cases source with
    | nil => exact absurd rfl hne
    | cons c rest =>
      unfold blank_script blank_from at h
      by_cases h0 : c = 0
      · simp [h0] at h
      · simp only [h0, if_false, Bool.false_eq_true] at h
        have hc : c = ch ' ' ∨ c = ch '\t' ∨ c = ch '\n' ∨ c = ch '#' := by
          by_cases hw : c = ch ' ' ∨ c = ch '\t' ∨ c = ch '\n'
          · rcases hw with hw | hw | hw
            · exact Or.inl hw
            · exact Or.inr (Or.inl hw)
            · exact Or.inr (Or.inr (Or.inl hw))
          · simp only [hw, if_false] at h
            by_cases hh : c = ch '#'
            · exact Or.inr (Or.inr (Or.inr hh))
            · simp [hh] at h
        refine parse_loop_stuck _ _ fuel 0 [] program (strlen_cons_pos c rest h0) ?_
        show c = _ ∨ c = _ ∨ c = _ ∨ c = _ ∨ c = _ ∨ c = _
        rcases hc with hc | hc | hc | hc
        · exact Or.inl hc
        · exact Or.inr (Or.inl hc)
        · exact Or.inr (Or.inr (Or.inl hc))
        · exact Or.inr (Or.inr (Or.inr (Or.inl hc)))
  · intro he fuel program
    subst he
    exact ⟨parse_nil fuel program, rfl, rfl⟩

/-- C10, at the script of a comment line followed by a tab and a space:
`parse` has not returned when a fuel of 1000 is spent. -/
theorem parse_blank_script_witness :
    blank_script (bytes "# note\n\t ") = true ∧
    parse 1000 (bytes "# note\n\t ") (on_file [] [] 0) = none :=
  ⟨by decide,
    (parse_blank_script regular (bytes "# note\n\t ") (by decide)).1 (by decide) 1000
      (on_file [] [] 0)⟩

/-- The loop of `parse` at a command letter whose parsing function is not
implemented: the function prints its message and returns the null pointer,
and `parse` prints its own message and returns `1`. -/
theorem parse_loop_unimplemented (source : List Byte) (len fuel index : Nat)
    (stored : List Instruction) (program : Program) (hi : index < len) :
    ((at_index source index = ch 'p' ∨ at_index source index = ch 'P') →
      parse_loop source len (fuel + 1) index stored program
        = some (1, { program with
            start := linked program stored,
            stdout := puts (puts program.stdout "parse_print unimplemented")
              "Parse: failed in call to parse_print" })) ∧
    ((at_index source index = ch 'b' ∨ at_index source index = ch 'B') →
      parse_loop source len (fuel + 1) index stored program
        = some (1, { program with
            start := linked program stored,
            stdout := puts (puts program.stdout "parse_byte unimplemented")
              "Parse: failed in call to parse_byte" })) ∧
    ((at_index source index = ch 'l' ∨ at_index source index = ch 'L') →
      parse_loop source len (fuel + 1) index stored program
        = some (1, { program with
            start := linked program stored,
            stdout := puts (puts program.stdout "parse_line unimplemented")
              "Parse: failed in call to parse_line" })) ∧
    ((at_index source index = ch 'e' ∨ at_index source index = ch 'E') →
      parse_loop source len (fuel + 1) index stored program
        = some (1, { program with
            start := linked program stored,
            stdout := puts (puts program.stdout "parse_expect unimplemented")
              "Parse: failed in call to parse_expect" })) ∧
    ((at_index source index = ch 'w' ∨ at_index source index = ch 'W') →
      parse_loop source len (fuel + 1) index stored program
        = some (1, { program with
            start := linked program stored,
            stdout := puts (puts program.stdout "parse_write unimplemented")
              "Parse: failed in call to parse_write" })) := by
  refine ⟨?_, ?_, ?_, ?_, ?_⟩ <;> intro hc <;> rcases hc with h | h <;>
    simp [parse_loop, hi, h, ch, parse_print, parse_byte, parse_line, parse_expect,
      parse_write, new_instruction, store_result]

/-- C11 fails on the code: `parse_quit` accepts the letter and returns a
`Quit` instruction, but it leaves the index where it was, so on the scripts
`q` and `Q` the loop of `parse` meets the same letter again and `parse` does
not return, whatever fuel it is given. -/
theorem parse_quit_script (fuel : Nat) (program : Program) :
    parse fuel (bytes "q") program = none ∧
    parse fuel (bytes "Q") program = none ∧
    parse_quit (bytes "q") 0 program.stdout = (some Instruction.quit, 0, program.stdout) ∧
    parse_quit (bytes "Q") 0 program.stdout = (some Instruction.quit, 0, program.stdout) ∧
    (∀ (source : List Byte) (index : Nat) (out : List Byte),
      (parse_quit source index out).2.1 = index) := by
  refine ⟨?_, ?_, rfl, rfl, ?_⟩
  · exact parse_loop_stuck _ _ fuel 0 [] program (by decide) (by decide)
  · exact parse_loop_stuck _ _ fuel 0 [] program (by decide) (by decide)
  · intro source index out
    unfold parse_quit
    simp only [new_instruction]
    split_ifs <;> rfl

/-- C12 fails on the code: `parse_byte` is not implemented and returns the
null pointer, so on every script that starts with `b`, a string of digits
behind it or not, `parse` prints the two messages and returns `1`, and no
instruction is stored; this holds for the documented script `b6`. -/
theorem parse_byte_script (d : List Byte) (fuel : Nat) (program : Program) :
    parse (fuel + 1) (ch 'b' :: d) program
      = some (1, { program with
          stdout := puts (puts program.stdout "parse_byte unimplemented")
            "Parse: failed in call to parse_byte" }) ∧
    parse (fuel + 1) (bytes "b6") program
      = some (1, { program with
          stdout := puts (puts program.stdout "parse_byte unimplemented")
            "Parse: failed in call to parse_byte" }) := by
  have h : ∀ rest : List Byte, parse (fuel + 1) (ch 'b' :: rest) program
      = some (1, { program with
          stdout := puts (puts program.stdout "parse_byte unimplemented")
            "Parse: failed in call to parse_byte" }) := by
    intro rest
    unfold parse
    rw [(parse_loop_unimplemented (ch 'b' :: rest) _ fuel 0 [] program
      (strlen_cons_pos _ rest (by decide))).2.1 (Or.inl rfl)]
    rfl
  exact ⟨h d, h (bytes "6")⟩

/-- C13 fails on the code: `parse_expect` and `parse_write` are not
implemented and return the null pointer, so on every script that starts with
`e` or with `w`, a delimited string behind it or not, `parse` prints the two
messages and returns `1`, and no instruction is stored; this holds for the
documented scripts `e/world/` and `w/hello/`. -/
theorem parse_string_script (s : List Byte) (fuel : Nat) (program : Program) :
    parse (fuel + 1) (ch 'e' :: ch '/' :: (s ++ [ch '/'])) program
      = some (1, { program with
          stdout := puts (puts program.stdout "parse_expect unimplemented")
            "Parse: failed in call to parse_expect" }) ∧
    parse (fuel + 1) (ch 'w' :: ch '/' :: (s ++ [ch '/'])) program
      = some (1, { program with
          stdout := puts (puts program.stdout "parse_write unimplemented")
            "Parse: failed in call to parse_write" }) ∧
    (parse (fuel + 1) (bytes "e/world/") program).map (fun r => r.1) = some 1 ∧
    (parse (fuel + 1) (bytes "w/hello/") program).map (fun r => r.1) = some 1 := by
  have he : ∀ rest : List Byte, parse (fuel + 1) (ch 'e' :: rest) program
      = some (1, { program with
          stdout := puts (puts program.stdout "parse_expect unimplemented")
            "Parse: failed in call to parse_expect" }) := by
    intro rest
    unfold parse
    rw [(parse_loop_unimplemented (ch 'e' :: rest) _ fuel 0 [] program
      (strlen_cons_pos _ rest (by decide))).2.2.2.1 (Or.inl rfl)]
    rfl
  have hw : ∀ rest : List Byte, parse (fuel + 1) (ch 'w' :: rest) program
      = some (1, { program with
          stdout := puts (puts program.stdout "parse_write unimplemented")
            "Parse: failed in call to parse_write" }) := by
    intro rest
    unfold parse
    rw [(parse_loop_unimplemented (ch 'w' :: rest) _ fuel 0 [] program
      (strlen_cons_pos _ rest (by decide))).2.2.2.2 (Or.inl rfl)]
    rfl
  refine ⟨he _, hw _, ?_, ?_⟩
  · rw [show bytes "e/world/" = ch 'e' :: bytes "/world/" from rfl, he]
    rfl
  · rw [show bytes "w/hello/" = ch 'w' :: bytes "/hello/" from rfl, hw]
    rfl

/-- The loop of `parse` at a byte the `switch` has no case for: `parse`
prints the byte and returns `1`. -/
theorem parse_loop_invalid (source : List Byte) (len fuel index : Nat)
    (stored : List Instruction) (program : Program) (hi : index < len)
    (hc : at_index source index ∉ known_characters) (h0 : at_index source index ≠ 0) :
    parse_loop source len (fuel + 1) index stored program
      = some (1, { program with
          start := linked program stored,
          stdout := printf program.stdout
            (bytes "Parse: Invalid character encountered '" ++ [at_index source index]
              ++ bytes "'\n") }) := by
  simp only [known_characters, List.mem_cons, List.mem_singleton, List.not_mem_nil,
    or_false, not_or] at hc
  obtain ⟨h1, h2, h3, h4, h5, h6, h7, h8, h9, h10, h11, h12, h13, h14, h15, h16⟩ := hc
  unfold parse_loop
  simp only [hi, if_true, h1, h2, h3, h4, h5, h6, h7, h8, h9, h10, h11, h12, h13, h14, h15,
    h16, h0, or_self, if_false]

/-- On a script that starts with `e`, `E`, `w` or `W`, `parse` returns `1`
and stores no instruction. -/
theorem parse_string_first (c : Byte) (rest : List Byte) (fuel : Nat) (program : Program)
    (hc : c = ch 'e' ∨ c = ch 'E' ∨ c = ch 'w' ∨ c = ch 'W') :
    ∃ out, parse (fuel + 1) (c :: rest) program = some (1, { program with stdout := out }) := by
  have h0 : c ≠ 0 := by
    rcases hc with h | h | h | h <;> rw [h] <;> decide
  have hu := parse_loop_unimplemented (c :: rest) (strlen (c :: rest)) fuel 0 [] program
    (strlen_cons_pos c rest h0)
  unfold parse
  rcases hc with h | h | h | h
  · exact ⟨_, hu.2.2.2.1 (Or.inl h)⟩
  · exact ⟨_, hu.2.2.2.1 (Or.inr h)⟩
  · exact ⟨_, hu.2.2.2.2 (Or.inl h)⟩
  · exact ⟨_, hu.2.2.2.2 (Or.inr h)⟩

/-- C14 fails on the code: on the script of a space followed by `e/abc`, in
which the string opened by the expect command is never closed, `parse` does
not return, whatever fuel it is given, because the space ahead of the command
is never passed; the same holds behind a newline. Where the script starts
with the command, as `e/abc` and `w/abc` do, `parse` returns `1` and stores
no instruction, closed string or not. -/
theorem parse_unterminated_string (fuel : Nat) (program : Program) :
    parse fuel (bytes " e/abc") program = none ∧
    parse fuel (bytes "\nw/abc") program = none ∧
    (∃ out, parse (fuel + 1) (bytes "e/abc") program
      = some (1, { program with stdout := out })) ∧
    (∃ out, parse (fuel + 1) (bytes "w/abc") program
      = some (1, { program with stdout := out })) := by
  refine ⟨?_, ?_, ?_, ?_⟩
  · exact parse_loop_stuck _ _ fuel 0 [] program (by decide) (by decide)
  · exact parse_loop_stuck _ _ fuel 0 [] program (by decide) (by decide)
  · exact parse_string_first (ch 'e') (bytes "/abc") fuel program (Or.inl rfl)
  · exact parse_string_first (ch 'w') (bytes "/abc") fuel program (Or.inr (Or.inr (Or.inl rfl)))

/-- C15 fails on the code: on the script of a space followed by `x`, and on
the script `q` followed by `x`, `parse` does not return, whatever fuel it is
given, because the byte ahead of the invalid character is never passed. Where
the invalid character is the first byte of the script, `parse` prints it and
returns `1`, and no instruction is stored. -/
theorem parse_invalid_character (fuel : Nat) (program : Program) :
    parse fuel (bytes " x") program = none ∧
    parse fuel (bytes "qx") program = none ∧
    (∀ (c : Byte) (rest : List Byte), c ∉ known_characters → c ≠ 0 →
      parse (fuel + 1) (c :: rest) program
        = some (1, { program with
            stdout := printf program.stdout
              (bytes "Parse: Invalid character encountered '" ++ [c] ++ bytes "'\n") })) := by
  refine ⟨?_, ?_, ?_⟩
  · exact parse_loop_stuck _ _ fuel 0 [] program (by decide) (by decide)
  · exact parse_loop_stuck _ _ fuel 0 [] program (by decide) (by decide)
  · intro c rest hc h0
    unfold parse
    rw [parse_loop_invalid (c :: rest) _ fuel 0 [] program (strlen_cons_pos c rest h0) hc h0]
    rfl

/-- C15, at the script `x`: the invalid character comes first and `parse`
returns `1` with its message. -/
theorem parse_invalid_character_witness :
    ch 'x' ∉ known_characters ∧ ch 'x' ≠ 0 ∧
    parse 1 (bytes "x") (on_file [] [] 0)
      = some (1, { on_file [] [] 0 with
          stdout := bytes "Parse: Invalid character encountered 'x'\n" }) :=
  ⟨by decide, by decide,
    ((parse_invalid_character 0 (on_file [] [] 0)).2.2 (ch 'x') [] (by decide)
      (by decide)).trans (by decide)⟩

/-- C16 fails on the code in its first part: when `source[index]` is `#`,
`parse_comment` does not return, whatever fuel it is given, because the
`break` on a newline or a zero byte leaves the `switch` and not the loop. The
second part holds: when `source[index]` is not `#`, it prints its message and
returns `1` with the index unmoved. -/
theorem parse_comment_result (fuel : Nat) (source : List Byte) (index : Nat)
    (out : List Byte) :
    (at_index source index = ch '#' → parse_comment fuel source index out = none) ∧
    (at_index source index ≠ ch '#' →
      parse_comment fuel source index out
        = some (1, index, printf out (bytes "Parse_comment: expected '#', got '"
            ++ [at_index source index] ++ bytes "'\n"))) := by
  constructor
  · exact parse_comment_none fuel source index out
  · intro h
    unfold parse_comment
    simp only [ne_eq, h, not_false_eq_true, if_true]

/-- C16, at the comment `# c` followed by a newline: `parse_comment` has not
returned when a fuel of 1000 is spent; at the script `x` it returns `1` and
leaves the index at 0. -/
theorem parse_comment_result_witness :
    at_index (bytes "# c\n") 0 = ch '#' ∧
    parse_comment 1000 (bytes "# c\n") 0 [] = none ∧
    at_index (bytes "x") 0 ≠ ch '#' ∧
    (parse_comment 1000 (bytes "x") 0 []).map (fun r => (r.1, r.2.1)) = some (1, 0) :=
  ⟨by decide,
    (parse_comment_result 1000 (bytes "# c\n") 0 []).1 (by decide),
    by decide,
    by rw [(parse_comment_result 1000 (bytes "x") 0 []).2 (by decide)]; rfl⟩

/-- C17 fails on the code: `get_buffer` leaves the recorded capacity at the
smaller of the capacity before the call and `required_len`. With a capacity
of 8 and a request of 4 it shrinks the buffer to 4; with a capacity of 4 and
a request of 8 it returns the buffer of 4 bytes as it is; with a request of 0
it records the capacity 0 and returns the null pointer. -/
theorem get_buffer_capacity (p : Program) (required_len : Nat) :
    (get_buffer p required_len).2.buf_len = min p.buf_len required_len ∧
    (get_buffer { p with buf := [1, 2, 3, 4, 5, 6, 7, 8], buf_len := 8 } 4).1
      = some [1, 2, 3, 4] ∧
    (get_buffer { p with buf := [1, 2, 3, 4, 5, 6, 7, 8], buf_len := 8 } 4).2.buf_len = 4 ∧
    (get_buffer { p with buf := [1, 2, 3, 4], buf_len := 4 } 8).1 = some [1, 2, 3, 4] ∧
    (get_buffer { p with buf := [1, 2, 3, 4], buf_len := 4 } 8).2.buf_len = 4 ∧
    (get_buffer { p with buf := [1, 2, 3, 4], buf_len := 4 } 0).1 = none ∧
    (get_buffer { p with buf := [1, 2, 3, 4], buf_len := 4 } 0).2.buf_len = 0 := by
  refine ⟨?_, rfl, rfl, rfl, rfl, rfl, rfl⟩
  unfold get_buffer
  by_cases h : p.buf_len ≤ required_len
  · simp only [h, if_true]
    omega
  · simp only [h, if_false]
    split_ifs <;> simp only [Program.puts] <;> omega

theorem exists_cons_of_strlen_pos (source : List Byte) (h : 0 < strlen source) :
    ∃ c rest, source = c :: rest ∧ c ≠ 0 := by
  cases source with
  | nil => simp [strlen, cstr] at h
  | cons c rest =>
    refine ⟨c, rest, rfl, ?_⟩
    intro h0
    simp [strlen, cstr, h0] at h

theorem parse_of_strlen_zero (source : List Byte) (h : strlen source = 0) (fuel : Nat)
    (program : Program) :
    parse fuel source program = some (0, { program with start := [] }) := by
  unfold parse
  rw [h]
  cases fuel <;> simp [parse_loop]

/-- On a script that is not empty, `parse` either does not return, whatever
fuel it is given, or returns `1` as soon as it has fuel for one round. -/
theorem parse_nonempty (source : List Byte) (program : Program) (h : 0 < strlen source) :
    (∀ fuel, parse fuel source program = none) ∨
    (∃ r, ∀ fuel, parse (fuel + 1) source program = some (1, r)) := by
  obtain ⟨c, rest, hs, h0⟩ := exists_cons_of_strlen_pos source h
  subst hs
  have hat : at_index (c :: rest) 0 = c := rfl
  by_cases hk : c ∈ known_characters
  · simp only [known_characters, List.mem_cons, List.mem_singleton, List.not_mem_nil,
      or_false] at hk
    have hu := fun fuel => parse_loop_unimplemented (c :: rest) (strlen (c :: rest)) fuel 0 []
      program h
    have hst := fun fuel (hc : _) => parse_loop_stuck (c :: rest) (strlen (c :: rest)) fuel 0 []
      program h hc
    rcases hk with k | k | k | k | k | k | k | k | k | k | k | k | k | k | k | k
    · exact Or.inr ⟨_, fun fuel => (hu fuel).1 (Or.inl k)⟩
    · exact Or.inr ⟨_, fun fuel => (hu fuel).1 (Or.inr k)⟩
    · exact Or.inr ⟨_, fun fuel => (hu fuel).2.1 (Or.inl k)⟩
    · exact Or.inr ⟨_, fun fuel => (hu fuel).2.1 (Or.inr k)⟩
    · exact Or.inr ⟨_, fun fuel => (hu fuel).2.2.1 (Or.inl k)⟩
    · exact Or.inr ⟨_, fun fuel => (hu fuel).2.2.1 (Or.inr k)⟩
    · exact Or.inr ⟨_, fun fuel => (hu fuel).2.2.2.1 (Or.inl k)⟩
    · exact Or.inr ⟨_, fun fuel => (hu fuel).2.2.2.1 (Or.inr k)⟩
    · exact Or.inr ⟨_, fun fuel => (hu fuel).2.2.2.2 (Or.inl k)⟩
    · exact Or.inr ⟨_, fun fuel => (hu fuel).2.2.2.2 (Or.inr k)⟩
    · exact Or.inl fun fuel => hst fuel (Or.inr (Or.inr (Or.inr (Or.inr (Or.inl k)))))
    · exact Or.inl fun fuel => hst fuel (Or.inr (Or.inr (Or.inr (Or.inr (Or.inr k)))))
    · exact Or.inl fun fuel => hst fuel (Or.inr (Or.inr (Or.inr (Or.inl k))))
    · exact Or.inl fun fuel => hst fuel (Or.inl k)
    · exact Or.inl fun fuel => hst fuel (Or.inr (Or.inl k))
    · exact Or.inl fun fuel => hst fuel (Or.inr (Or.inr (Or.inl k)))
  · exact Or.inr ⟨_, fun fuel =>
      parse_loop_invalid (c :: rest) (strlen (c :: rest)) fuel 0 [] program h hk h0⟩

/-- C18: on every script that is not empty, `parse` does not return `0`: it
either does not return, whatever fuel it is given, or it returns `1` as soon
as it has fuel for one round. On the empty script, and on it alone, `parse`
returns `0`, and the sequence it yields is empty. -/
theorem parse_succeeds_only_on_empty (source : List Byte) (program : Program) :
    (0 < strlen source →
      (∀ fuel r, parse fuel source program ≠ some (0, r)) ∧
      ((∀ fuel, parse fuel source program = none) ∨
        (∃ r, ∀ fuel, parse (fuel + 1) source program = some (1, r)))) ∧
    (strlen source = 0 →
      ∀ fuel, parse fuel source program = some (0, { program with start := [] })) ∧
    ((∃ fuel r, parse fuel source program = some (0, r)) ↔ strlen source = 0) := by
  have hne : 0 < strlen source → ∀ fuel r, parse fuel source program ≠ some (0, r) := by
    intro h fuel r
    rcases parse_nonempty source program h with hn | ⟨r1, hr⟩
    · rw [hn fuel]
      simp
    · cases fuel with
      | zero => simp [parse, parse_loop, h]
      | succ fuel =>
        rw [hr fuel]
        simp
  refine ⟨fun h => ⟨hne h, parse_nonempty source program h⟩,
    fun h fuel => parse_of_strlen_zero source h fuel program, ?_⟩
  constructor
  · rintro ⟨fuel, r, hr⟩
    by_contra h0
    exact hne (Nat.pos_of_ne_zero h0) fuel r hr
  · intro h
    exact ⟨0, _, parse_of_strlen_zero source h 0 program⟩

/-- C18, at the scripts `b6` (returns `1`), one space (never returns) and
the empty script (returns `0` with the empty sequence). -/
theorem parse_succeeds_only_on_empty_witness :
    0 < strlen (bytes "b6") ∧
    parse 5 (bytes "b6") (on_file [.quit] [] 0) ≠ some (0, on_file [] [] 0) ∧
    strlen [] = 0 ∧
    parse 5 [] (on_file [.quit] [] 0) = some (0, on_file [] [] 0) :=
  ⟨by decide,
    ((parse_succeeds_only_on_empty (bytes "b6") (on_file [.quit] [] 0)).1 (by decide)).1 5 _,
    by decide,
    (parse_succeeds_only_on_empty [] (on_file [.quit] [] 0)).2.1 (by decide) 5⟩

/-! ## Frame and completion of `execute` -/

theorem eval_instruction_data {dev : Device} (p : Program) (c : Instruction)
    (hc : ∀ str, c ≠ Instruction.write str) :
    (eval_instruction dev p c).2.file.data = p.file.data := by
  cases c with
  | print num =>
    simp only [eval_instruction, eval_print, Program.puts, Program.printf]
    split_ifs <;> rfl
  | line num => rfl
  | byte num =>
    simp only [eval_instruction, eval_byte, fseek, Program.puts]
    split_ifs <;> rfl
  | expect str =>
    cases str with
    | none => rfl
    | some str =>
      simp only [eval_instruction, eval_expect, Program.printf]
      split_ifs <;> rfl
  | write str => exact absurd rfl (hc str)
  | quit => rfl

theorem execute_loop_data {dev : Device} (l : List Instruction) (p : Program)
    (h : has_write l = false) :
    (execute_loop dev l p).2.file.data = p.file.data := by
  induction l generalizing p with
  | nil => rfl
  | cons c cs ih =>
    have hc : ∀ str, c ≠ Instruction.write str := by
      intro str e
      subst e
      simp [has_write] at h
    have hcs : has_write cs = false := by
      cases c <;> first | exact h | exact absurd rfl (hc _)
    have hd := @eval_instruction_data dev p c hc
    rw [execute_loop_cons]
    split_ifs
    · rfl
    · exact hd
    · rw [ih _ hcs, hd]

/-- C19: for every program whose instruction sequence holds no `Write` and
every file, `execute` leaves the contents of the file, and so its length, as
they were, whatever it returns. -/
theorem execute_keeps_contents (dev : Device) (p : Program) (h : has_write p.start = false) :
    (execute dev p).2.file.data = p.file.data ∧
    (execute dev p).2.file.data.length = p.file.data.length := by
  have hd := @execute_loop_data dev p.start p h
  exact ⟨hd, congrArg List.length hd⟩

/-- C19, at the sequence `p2`, `b1`, `e/zz/`, `l3` on the file `a b c d`:
the expectation fails and the file still holds `a b c d`. -/
theorem execute_keeps_contents_witness :
    has_write [.print 2, .byte 1, .expect (some (bytes "zz")), .line 3] = false ∧
    (execute regular (on_file [.print 2, .byte 1, .expect (some (bytes "zz")), .line 3]
      (bytes "abcd") 0)).2.file.data = bytes "abcd" ∧
    (execute regular (on_file [.print 2, .byte 1, .expect (some (bytes "zz")), .line 3]
      (bytes "abcd") 0)).1 = 1 :=
  ⟨by decide,
    (execute_keeps_contents regular
      (on_file [.print 2, .byte 1, .expect (some (bytes "zz")), .line 3]
      (bytes "abcd") 0) (by decide)).1,
    by decide⟩

/-- C20: for every program whose instruction sequence holds no `Quit` and
whose instructions all return `0` when evaluated in order, `execute` returns
`0` and leaves the state behind the last instruction; the end of the list
acts as a quit. This covers the empty sequence. -/
theorem execute_without_quit (dev : Device) (p : Program) (hq : Instruction.quit ∉ p.start)
    (hall : all_succeed dev p.start p) :
    (execute dev p).1 = 0 ∧ (execute dev p).2 = eval_all dev p.start p := by
  have h := execute_loop_append p.start [] p hq hall
  rw [List.append_nil] at h
  unfold execute
  rw [h]
  exact ⟨rfl, rfl⟩

/-- C20, at the sequence `b1`, `w/hi/`, `p2` on the file `a b c d e`, and at
the empty sequence: `execute` returns `0` with no `Quit` in the list. -/
theorem execute_without_quit_witness :
    (execute regular (on_file [.byte 1, .write (some (bytes "hi")), .print 2] (bytes "abcde") 0)).1
      = 0 ∧
    (execute regular
      (on_file [.byte 1, .write (some (bytes "hi")), .print 2] (bytes "abcde") 0)).2.file
      = { data := bytes "ahide", pos := 5 } ∧
    (execute regular (on_file [] (bytes "abcde") 0)).1 = 0 := by
  have h := execute_without_quit regular
    (on_file [.byte 1, .write (some (bytes "hi")), .print 2] (bytes "abcde") 0)
    (by decide) ⟨by decide, by decide, by decide, trivial⟩
  have h0 := execute_without_quit regular (on_file [] (bytes "abcde") 0) (by decide) trivial
  refine ⟨h.1, ?_, h0.1⟩
  rw [h.2]
  decide

end Dodo
